import Mathlib

set_option maxRecDepth 100000

/-!
Verification of the spiceai row-to-columnar decoding core.

This file gives a shallow embedding of:
  * the PostgreSQL binary NUMERIC decoder `BigDecimalFromSql::from_sql`
    (crates/arrow_sql_gen/src/postgres.rs),
  * the row decoder `rows_to_arrow` (same file),
  * the Snowflake TIMESTAMP_NTZ cast `cast_sf_timestamp_ntz_to_arrow_timestamp`
    and `snowflake_schema_cast` (crates/db_connection_pool/src/dbconnection/snowflakeconn.rs),
  * the embedding loop of `VectorSearch::calculate_embeddings_per_table`
    (crates/runtime/src/embeddings/vector_search.rs),
and proves the spec claims about them.

Machine integers are modelled as Nat/Int with explicit wrapping where the source
can overflow.  Fallible Rust code is modelled with the `RRes` type below, whose
`crash` constructor stands for a Rust panic (e.g. `unimplemented!`, slice index
out of bounds, or a `Vec::resize` to a wrapped-negative length), `err` for a
returned `Err` value, and `ok` for success.
-/

/-- Result of running a piece of fallible Rust code: `crash` models a panic,
`err e` a returned error value, `ok a` a successful return. -/
inductive RRes (ε α : Type) where
  | crash : RRes ε α
  | err (e : ε) : RRes ε α
  | ok (a : α) : RRes ε α
deriving DecidableEq

namespace RRes

def bind {ε α β : Type} : RRes ε α → (α → RRes ε β) → RRes ε β
  | .crash, _ => .crash
  | .err e, _ => .err e
  | .ok a, f => f a

def map {ε α β : Type} (f : α → β) : RRes ε α → RRes ε β
  | .crash => .crash
  | .err e => .err e
  | .ok a => .ok (f a)

instance {ε : Type} : Monad (RRes ε) where
  pure := .ok
  bind := RRes.bind
  map := RRes.map

def isErr {ε α : Type} : RRes ε α → Bool
  | .err _ => true
  | _ => false

def isOk {ε α : Type} : RRes ε α → Bool
  | .ok _ => true
  | _ => false

end RRes

/-- Two's-complement wrap-around to a `bits`-wide signed machine integer: the
value release builds produce for an overflowing Rust integer operation (debug
builds panic exactly when the wrapped value differs from the exact one). -/
def wrapTwos (bits : Nat) (x : Int) : Int :=
  (x + 2 ^ (bits - 1)) % 2 ^ bits - 2 ^ (bits - 1)

namespace SpicePg

/-! ## PostgreSQL binary NUMERIC decoder (`BigDecimalFromSql::from_sql`) -/

/-- Model of `bigdecimal::BigDecimal`: the represented value is
`intVal / 10 ^ scale` (the crate stores a `BigInt` plus an `i64` scale). -/
structure BigDecimalM where
  intVal : Int
  scale : Int
deriving DecidableEq

/-- Model of the `BigDecimalFromSql` struct of postgres.rs: the parsed
`BigDecimal` plus the declared scale (`w3`, a u16). -/
structure BigDecimalFromSql where
  inner : BigDecimalM
  scale : Nat
deriving DecidableEq

/-- Error enum of postgres.rs restricted to the variant from_sql can return. -/
inductive NumericError where
  | failedToParseBigDecimalFromPostgres (bytes : List Nat)
deriving DecidableEq

/-- Group a byte sequence into big-endian 16-bit words, exactly like the
`raw.chunks(2)` loop of `from_sql`: a trailing lone byte `b` becomes
`u16::from_be_bytes([b, 0]) = b * 256`. -/
def numericWords : List Nat → List Nat
  | [] => []
  | [b] => [b * 256]
  | b0 :: b1 :: rest => (b0 * 256 + b1) :: numericWords rest

/-- Reinterpret a u16 word as an i16 (`raw_u16[1] as i16`). -/
def u16ToI16 (w : Nat) : Int :=
  if w < 32768 then (w : Int) else (w : Int) - 65536

/-- Fuelled form of the `while base_10_000_digit > 0` loop of `from_sql`:
base-10 digits of `d`, least significant first, empty for `d = 0`.  The loop
divides by 10 each step, so any fuel of at least `d` reproduces it exactly. -/
def pushDigitsAux : Nat → Nat → List Nat
  | 0, _ => []
  | fuel + 1, d => if d = 0 then [] else (d % 10) :: pushDigitsAux fuel (d / 10)

/-- The `while base_10_000_digit > 0` loop of `from_sql` (fuel `d` suffices
because the loop variable strictly decreases under division by 10). -/
def pushDigitsLSB (d : Nat) : List Nat :=
  pushDigitsAux d d

/-- The `while temp_result.len() < 4` padding loop: right-pad with zeros to
length 4 (a malformed base-10000 digit with five decimal digits is left as is,
just like in the source). -/
def pad4 (l : List Nat) : List Nat :=
  l ++ List.replicate (4 - l.length) 0

/-- The base-10000 digit words `w4 .. w4+w0-1` read by the `for i in 4..4 +
base_10_000_digit_count` loop. -/
def numericDigits10000 (w : List Nat) : List Nat :=
  (List.range (w.getD 0 0)).map fun i => w.getD (4 + i) 0

/-- The fully expanded base-10 digit list `u8_digits` (most significant first):
each base-10000 digit is expanded LSB-first, groups are emitted for the digit
words in reverse, and the whole buffer is reversed at the end. -/
def numericU8Digits (w : List Nat) : List Nat :=
  (((numericDigits10000 w).reverse.map fun d => pad4 (pushDigitsLSB d)).flatten).reverse

/-- The target length of the `u8_digits.resize(size as usize, 0)` call:
`u8_digits.len() + scale - 4 * (digit_count - weight - 1)` as an i64. -/
def numericResizeLen (w : List Nat) : Int :=
  ((numericU8Digits w).length : Int) + (w.getD 3 0 : Int)
    - 4 * ((w.getD 0 0 : Int) - u16ToI16 (w.getD 1 0) - 1)

/-- Model of `BigInt::from_radix_be(sign, digits, 10)`: `none` when some digit
is not a valid base-10 digit, otherwise the signed big-endian value (num-bigint
normalises a negative zero to zero, which `Int` does automatically). -/
def fromRadixBe (neg : Bool) (digits : List Nat) : Option Int :=
  if digits.any fun d => 10 ≤ d then none
  else some ((if neg then -1 else 1) * (digits.foldl (fun acc d => acc * 10 + d) 0 : Nat))

/-- Model of `BigDecimalFromSql::from_sql` on the raw wire bytes.  `crash`
models the panics of the source: an out-of-bounds index into `raw_u16`
(header words or digit words missing), an overflow of the u16 loop bound
`4 + base_10_000_digit_count` (for a digit-count word of `0xFFFC` or more the
addition overflows u16 — a debug panic; in release the wrapped range is empty,
the resize length then necessarily negative, and the resize panics — so both
build modes panic), and the `resize(size as usize, 0)` call when `size` is
negative (the `as usize` cast wraps to an enormous length). -/
def bigDecimalFromSql (raw : List Nat) : RRes NumericError BigDecimalFromSql :=
  let w := numericWords raw
  if 4 ≤ w.length then
   if 4 + w.getD 0 0 ≤ 65535 then
    if 4 + w.getD 0 0 ≤ w.length then
      let scale := w.getD 3 0
      let digitsResized :=
        if 0 ≤ numericResizeLen w then
          (numericU8Digits w).take (numericResizeLen w).toNat ++
            List.replicate ((numericResizeLen w).toNat - (numericU8Digits w).length) 0
        else []
      if 0 ≤ numericResizeLen w then
        if w.getD 2 0 = 0x4000 ∨ w.getD 2 0 = 0 then
          match fromRadixBe (w.getD 2 0 = 0x4000) digitsResized with
          | none => .err (.failedToParseBigDecimalFromPostgres raw)
          | some v => .ok ⟨⟨v, (scale : Int)⟩, scale⟩
        else .err (.failedToParseBigDecimalFromPostgres raw)
      else .crash
    else .crash
   else .crash
  else .crash

/-- Model of `BigDecimalFromSql::to_decimal_128`:
`(&self.inner * 10i128.pow(self.scale)).to_i128()`.  The `10i128.pow(scale)`
is i128 arithmetic: exact for scale up to 38, two's-complement-wrapped in
release builds beyond that (`wrapTwos 128`; debug builds panic there instead —
the wrap model follows release).  Multiplying the `BigDecimal` by the result
multiplies its integer part; converting to i128 truncates the fractional part
toward zero (`with_scale(0)`) and then checks the i128 range. -/
def BigDecimalFromSql.toDecimal128 (d : BigDecimalFromSql) : Option Int :=
  let prod := d.inner.intVal * wrapTwos 128 (10 ^ d.scale)
  let q :=
    if 0 ≤ d.inner.scale then Int.tdiv prod (10 ^ d.inner.scale.toNat)
    else prod * 10 ^ (-d.inner.scale).toNat
  if -(2 ^ 127) ≤ q ∧ q < 2 ^ 127 then some q else none

/-- Byte encoding of a u16 word list used by `test_big_decimal_from_sql`:
`flat_map(|&x| vec![(x >> 8) as u8, x as u8])`. -/
def wordsToBytes (ws : List Nat) : List Nat :=
  ws.flatMap fun x => [x / 256 % 256, x % 256]

end SpicePg

namespace SpicePg

/-! ## Arrow-side data model for `rows_to_arrow` -/

/-- Canonical Arrow data types reachable from the supported PostgreSQL column
types of `map_column_type_to_data_type`.  A `listT` compares equal exactly when
the element types are equal, matching `DataType::equals_datatype` for lists. -/
inductive DataTypeM where
  | int16 | int32 | int64 | float32 | float64 | utf8 | boolean
  | timestampMilli | date32
  | decimal128 (precision : Nat) (scale : Int)
  | listT (elem : DataTypeM)
deriving DecidableEq

/-- Model of `arrow::datatypes::Field` (name, data type, nullability). -/
structure FieldM where
  name : String
  dtype : DataTypeM
  nullable : Bool
deriving DecidableEq

/-- The PostgreSQL column types handled by the non-composite arms of
`rows_to_arrow`; `unsupported` stands for any vendor type outside that set
(the source's catch-all). -/
inductive PgType where
  | int2 | int4 | int8 | float4 | float8
  | text | varchar | bpchar | bool
  | numeric | timestamp | timestamptz | date | uuid
  | int2Array | int4Array | int8Array | float4Array | float8Array | textArray | boolArray
  | unsupported (tag : Nat)
deriving DecidableEq

/-- A decoded row cell as handed over by `Row::try_get`.  `null` is a SQL NULL.
Floats are carried as opaque bit payloads (the decoder only moves them).
`numeric raw` carries the wire bytes parsed by `BigDecimalFromSql::from_sql`.
`time t` models a `SystemTime` as signed milliseconds relative to `UNIX_EPOCH`
(`duration_since(UNIX_EPOCH)` fails exactly when `t < 0`, and `as_millis`
yields `t` for `t ≥ 0`).  `date d` carries days since epoch, the value
`Date32Type::from_naive_date` produces; `uuid s` carries the canonical
hyphenated lowercase rendering produced by `Uuid::to_string`. -/
inductive PgValue where
  | null
  | i16 (v : Int) | i32 (v : Int) | i64 (v : Int)
  | f32 (bits : Nat) | f64 (bits : Nat)
  | str (s : String)
  | boolV (b : Bool)
  | numeric (raw : List Nat)
  | time (millis : Int)
  | date (days : Int)
  | uuid (s : String)
  | i16List (vs : List Int) | i32List (vs : List Int) | i64List (vs : List Int)
  | f32List (vs : List Nat) | f64List (vs : List Nat)
  | strList (vs : List String) | boolList (vs : List Bool)
deriving DecidableEq

/-- Model of the typed Arrow array builders used by `rows_to_arrow`; a finished
builder doubles as the resulting column (the value content is unchanged by
`finish`).  List-array cells store their (all-present) elements directly. -/
inductive BuilderM where
  | int16B (vals : List (Option Int))
  | int32B (vals : List (Option Int))
  | int64B (vals : List (Option Int))
  | float32B (vals : List (Option Nat))
  | float64B (vals : List (Option Nat))
  | stringB (vals : List (Option String))
  | boolB (vals : List (Option Bool))
  | decimal128B (precision : Nat) (scale : Int) (vals : List (Option Int))
  | tsMilliB (vals : List (Option Int))
  | date32B (vals : List (Option Int))
  | listI16B (vals : List (Option (List Int)))
  | listI32B (vals : List (Option (List Int)))
  | listI64B (vals : List (Option (List Int)))
  | listF32B (vals : List (Option (List Nat)))
  | listF64B (vals : List (Option (List Nat)))
  | listStrB (vals : List (Option (List String)))
  | listBoolB (vals : List (Option (List Bool)))
deriving DecidableEq

/-- Number of entries (values and explicit nulls) in a builder or column. -/
def BuilderM.length : BuilderM → Nat
  | .int16B vs => vs.length
  | .int32B vs => vs.length
  | .int64B vs => vs.length
  | .float32B vs => vs.length
  | .float64B vs => vs.length
  | .stringB vs => vs.length
  | .boolB vs => vs.length
  | .decimal128B _ _ vs => vs.length
  | .tsMilliB vs => vs.length
  | .date32B vs => vs.length
  | .listI16B vs => vs.length
  | .listI32B vs => vs.length
  | .listI64B vs => vs.length
  | .listF32B vs => vs.length
  | .listF64B vs => vs.length
  | .listStrB vs => vs.length
  | .listBoolB vs => vs.length

/-- Number of null entries of a finished column. -/
def BuilderM.nullCount : BuilderM → Nat
  | .int16B vs => vs.countP (·.isNone)
  | .int32B vs => vs.countP (·.isNone)
  | .int64B vs => vs.countP (·.isNone)
  | .float32B vs => vs.countP (·.isNone)
  | .float64B vs => vs.countP (·.isNone)
  | .stringB vs => vs.countP (·.isNone)
  | .boolB vs => vs.countP (·.isNone)
  | .decimal128B _ _ vs => vs.countP (·.isNone)
  | .tsMilliB vs => vs.countP (·.isNone)
  | .date32B vs => vs.countP (·.isNone)
  | .listI16B vs => vs.countP (·.isNone)
  | .listI32B vs => vs.countP (·.isNone)
  | .listI64B vs => vs.countP (·.isNone)
  | .listF32B vs => vs.countP (·.isNone)
  | .listF64B vs => vs.countP (·.isNone)
  | .listStrB vs => vs.countP (·.isNone)
  | .listBoolB vs => vs.countP (·.isNone)

/-- Data type of the array a builder finishes into. -/
def BuilderM.dtype : BuilderM → DataTypeM
  | .int16B _ => .int16
  | .int32B _ => .int32
  | .int64B _ => .int64
  | .float32B _ => .float32
  | .float64B _ => .float64
  | .stringB _ => .utf8
  | .boolB _ => .boolean
  | .decimal128B p s _ => .decimal128 p s
  | .tsMilliB _ => .timestampMilli
  | .date32B _ => .date32
  | .listI16B _ => .listT .int16
  | .listI32B _ => .listT .int32
  | .listI64B _ => .listT .int64
  | .listF32B _ => .listT .float32
  | .listF64B _ => .listT .float64
  | .listStrB _ => .listT .utf8
  | .listBoolB _ => .listT .boolean

/-- The `Error` enum of postgres.rs (variants reachable from `rows_to_arrow`). -/
inductive ErrorM where
  | failedToBuildRecordBatch
  | noBuilderForIndex (index : Nat)
  | failedToDowncastBuilder (postgresType : PgType)
  | failedToConvertU128toI64
  | failedToGetRowValue (pgType : PgType)
  | failedToConvertBigDecimalToI128
  | noArrowFieldForIndex (index : Nat)
  | noColumnNameForIndex (index : Nat)
deriving DecidableEq

/-- Model of `map_column_type_to_data_type` on the non-composite types.  The
outer `none` models the `unimplemented!` panic on an unmapped vendor type; the
inner `none` is NUMERIC, whose scale is inspected from the first row. -/
def mapColumnTypeToDataType : PgType → Option (Option DataTypeM)
  | .int2 => some (some .int16)
  | .int4 => some (some .int32)
  | .int8 => some (some .int64)
  | .float4 => some (some .float32)
  | .float8 => some (some .float64)
  | .text => some (some .utf8)
  | .varchar => some (some .utf8)
  | .bpchar => some (some .utf8)
  | .uuid => some (some .utf8)
  | .bool => some (some .boolean)
  | .numeric => some none
  | .timestamp => some (some .timestampMilli)
  | .timestamptz => some (some .timestampMilli)
  | .date => some (some .date32)
  | .int2Array => some (some (.listT .int16))
  | .int4Array => some (some (.listT .int32))
  | .int8Array => some (some (.listT .int64))
  | .float4Array => some (some (.listT .float32))
  | .float8Array => some (some (.listT .float64))
  | .textArray => some (some (.listT .utf8))
  | .boolArray => some (some (.listT .boolean))
  | .unsupported _ => none

/-- Modelled from the spec: the crate file `arrow_sql_gen/src/arrow.rs`
defining `map_data_type_to_array_builder_optional` is not under src/; per the
spec each canonical data type gets the matching empty column builder, and a
`None` data type (NUMERIC before its scale is known) gets no builder. -/
def mapDataTypeToArrayBuilderOptional : Option DataTypeM → Option BuilderM
  | none => none
  | some .int16 => some (.int16B [])
  | some .int32 => some (.int32B [])
  | some .int64 => some (.int64B [])
  | some .float32 => some (.float32B [])
  | some .float64 => some (.float64B [])
  | some .utf8 => some (.stringB [])
  | some .boolean => some (.boolB [])
  | some .timestampMilli => some (.tsMilliB [])
  | some .date32 => some (.date32B [])
  | some (.decimal128 p s) => some (.decimal128B p s [])
  | some (.listT .int16) => some (.listI16B [])
  | some (.listT .int32) => some (.listI32B [])
  | some (.listT .int64) => some (.listI64B [])
  | some (.listT .float32) => some (.listF32B [])
  | some (.listT .float64) => some (.listF64B [])
  | some (.listT .utf8) => some (.listStrB [])
  | some (.listT .boolean) => some (.listBoolB [])
  | some (.listT _) => none

/-- Rust's `char::is_whitespace`: the Unicode White_Space code points. -/
def isRustWhitespace (c : Char) : Bool :=
  [0x9, 0xA, 0xB, 0xC, 0xD, 0x20, 0x85, 0xA0, 0x1680,
   0x2000, 0x2001, 0x2002, 0x2003, 0x2004, 0x2005, 0x2006, 0x2007, 0x2008,
   0x2009, 0x200A, 0x2028, 0x2029, 0x202F, 0x205F, 0x3000].contains c.toNat

/-- Rust's `str::trim_end`: remove trailing whitespace characters. -/
def rustTrimEnd (s : String) : String :=
  ⟨(s.data.reverse.dropWhile isRustWhitespace).reverse⟩

/-- Shared shape of the `handle_primitive_type!` / `handle_primitive_array_type!`
macros: check the builder exists, downcast it, extract the typed row value, and
append the value or a null. -/
def handlePrim {γ : Type} (ty : PgType) (i : Nat) (b : Option BuilderM)
    (down : BuilderM → Option (List (Option γ))) (inj : List (Option γ) → BuilderM)
    (extract : PgValue → Option γ) (cell : Option PgValue) : RRes ErrorM BuilderM :=
  match b with
  | none => .err (.noBuilderForIndex i)
  | some bb =>
    match down bb with
    | none => .err (.failedToDowncastBuilder ty)
    | some vals =>
      match cell with
      | none => .err (.failedToGetRowValue ty)
      | some .null => .ok (inj (vals ++ [none]))
      | some v =>
        match extract v with
        | none => .err (.failedToGetRowValue ty)
        | some x => .ok (inj (vals ++ [some x]))

/-- The TIMESTAMP / TIMESTAMPTZ arm of `rows_to_arrow`: a pre-epoch value
(`duration_since(UNIX_EPOCH)` fails) appends nothing at all; a post-epoch value
appends its milliseconds (erroring if they exceed `i64::MAX`); a NULL appends
a null. -/
def handleTimestamp (ty : PgType) (i : Nat) (b : Option BuilderM) (cell : Option PgValue) :
    RRes ErrorM BuilderM :=
  match b with
  | none => .err (.noBuilderForIndex i)
  | some bb =>
    match bb with
    | .tsMilliB vals =>
      match cell with
      | none => .err (.failedToGetRowValue ty)
      | some .null => .ok (.tsMilliB (vals ++ [none]))
      | some (.time t) =>
        if 0 ≤ t then
          if t < 2 ^ 63 then .ok (.tsMilliB (vals ++ [some t]))
          else .err .failedToConvertU128toI64
        else .ok (.tsMilliB vals)
      | some _ => .err (.failedToGetRowValue ty)
    | _ => .err (.failedToDowncastBuilder ty)

/-- One arm of the per-cell `match *postgres_type` dispatch of `rows_to_arrow`:
given the column's type, its name (for the lazily created NUMERIC field), the
current builder and field slots, and the row cell (`none` when `try_get(i)`
itself fails), produce the updated builder and field slots.  `crash` models the
`unimplemented!` catch-all and a panic inside NUMERIC parsing. -/
def decodeCell (ty : PgType) (name? : Option String) (b : Option BuilderM)
    (f : Option FieldM) (cell : Option PgValue) (i : Nat) :
    RRes ErrorM (Option BuilderM × Option FieldM) :=
  match ty with
  | .int2 =>
    (handlePrim .int2 i b
      (fun bb => match bb with | .int16B vs => some vs | _ => none) .int16B
      (fun v => match v with | .i16 x => some x | _ => none) cell).map fun bb => (some bb, f)
  | .int4 =>
    (handlePrim .int4 i b
      (fun bb => match bb with | .int32B vs => some vs | _ => none) .int32B
      (fun v => match v with | .i32 x => some x | _ => none) cell).map fun bb => (some bb, f)
  | .int8 =>
    (handlePrim .int8 i b
      (fun bb => match bb with | .int64B vs => some vs | _ => none) .int64B
      (fun v => match v with | .i64 x => some x | _ => none) cell).map fun bb => (some bb, f)
  | .float4 =>
    (handlePrim .float4 i b
      (fun bb => match bb with | .float32B vs => some vs | _ => none) .float32B
      (fun v => match v with | .f32 x => some x | _ => none) cell).map fun bb => (some bb, f)
  | .float8 =>
    (handlePrim .float8 i b
      (fun bb => match bb with | .float64B vs => some vs | _ => none) .float64B
      (fun v => match v with | .f64 x => some x | _ => none) cell).map fun bb => (some bb, f)
  | .text =>
    (handlePrim .text i b
      (fun bb => match bb with | .stringB vs => some vs | _ => none) .stringB
      (fun v => match v with | .str x => some x | _ => none) cell).map fun bb => (some bb, f)
  | .varchar =>
    (handlePrim .varchar i b
      (fun bb => match bb with | .stringB vs => some vs | _ => none) .stringB
      (fun v => match v with | .str x => some x | _ => none) cell).map fun bb => (some bb, f)
  | .bpchar =>
    match b with
    | none => .err (.noBuilderForIndex i)
    | some bb =>
      match bb with
      | .stringB vals =>
        match cell with
        | none => .err (.failedToGetRowValue .bpchar)
        | some .null => .ok (some (.stringB (vals ++ [none])), f)
        | some (.str v) => .ok (some (.stringB (vals ++ [some (rustTrimEnd v)])), f)
        | some _ => .err (.failedToGetRowValue .bpchar)
      | _ => .err (.failedToDowncastBuilder .bpchar)
  | .bool =>
    (handlePrim .bool i b
      (fun bb => match bb with | .boolB vs => some vs | _ => none) .boolB
      (fun v => match v with | .boolV x => some x | _ => none) cell).map fun bb => (some bb, f)
  | .numeric =>
    let v? : RRes ErrorM (Option BigDecimalFromSql) :=
      match cell with
      | none => .err (.failedToGetRowValue .numeric)
      | some .null => .ok none
      | some (.numeric raw) =>
        match bigDecimalFromSql raw with
        | .crash => .crash
        | .err _ => .err (.failedToGetRowValue .numeric)
        | .ok d => .ok (some d)
      | some _ => .err (.failedToGetRowValue .numeric)
    v?.bind fun v =>
      let scale : Nat := match v with | some d => d.scale | none => 0
      -- scale.try_into::<i8>().unwrap_or_default()
      let scaleI8 : Int := if scale ≤ 127 then (scale : Int) else 0
      -- Decimal128Builder::new().with_precision_and_scale(38, scaleI8).unwrap_or_default():
      -- the validation fails for scaleI8 > 38, falling back to the default (38, 10).
      let decB : BuilderM :=
        match b with
        | some bb => bb
        | none => if scaleI8 ≤ 38 then .decimal128B 38 scaleI8 [] else .decimal128B 38 10 []
      match decB with
      | .decimal128B p s vals =>
        let fres : RRes ErrorM (Option FieldM) :=
          match f with
          | some ff => .ok (some ff)
          | none =>
            match name? with
            | none => .err (.noColumnNameForIndex i)
            | some nm => .ok (some ⟨nm, .decimal128 38 scaleI8, true⟩)
        fres.bind fun f' =>
          match v with
          | none => .ok (some (.decimal128B p s (vals ++ [none])), f')
          | some d =>
            match d.toDecimal128 with
            | none => .err .failedToConvertBigDecimalToI128
            | some q => .ok (some (.decimal128B p s (vals ++ [some q])), f')
      | _ => .err (.failedToDowncastBuilder .numeric)
  | .timestamp => (handleTimestamp .timestamp i b cell).map fun bb => (some bb, f)
  | .timestamptz => (handleTimestamp .timestamptz i b cell).map fun bb => (some bb, f)
  | .date =>
    (handlePrim .date i b
      (fun bb => match bb with | .date32B vs => some vs | _ => none) .date32B
      (fun v => match v with | .date x => some x | _ => none) cell).map fun bb => (some bb, f)
  | .uuid =>
    (handlePrim .uuid i b
      (fun bb => match bb with | .stringB vs => some vs | _ => none) .stringB
      (fun v => match v with | .uuid x => some x | _ => none) cell).map fun bb => (some bb, f)
  | .int2Array =>
    (handlePrim .int2Array i b
      (fun bb => match bb with | .listI16B vs => some vs | _ => none) .listI16B
      (fun v => match v with | .i16List x => some x | _ => none) cell).map fun bb => (some bb, f)
  | .int4Array =>
    (handlePrim .int4Array i b
      (fun bb => match bb with | .listI32B vs => some vs | _ => none) .listI32B
      (fun v => match v with | .i32List x => some x | _ => none) cell).map fun bb => (some bb, f)
  | .int8Array =>
    (handlePrim .int8Array i b
      (fun bb => match bb with | .listI64B vs => some vs | _ => none) .listI64B
      (fun v => match v with | .i64List x => some x | _ => none) cell).map fun bb => (some bb, f)
  | .float4Array =>
    (handlePrim .float4Array i b
      (fun bb => match bb with | .listF32B vs => some vs | _ => none) .listF32B
      (fun v => match v with | .f32List x => some x | _ => none) cell).map fun bb => (some bb, f)
  | .float8Array =>
    (handlePrim .float8Array i b
      (fun bb => match bb with | .listF64B vs => some vs | _ => none) .listF64B
      (fun v => match v with | .f64List x => some x | _ => none) cell).map fun bb => (some bb, f)
  | .textArray =>
    (handlePrim .textArray i b
      (fun bb => match bb with | .listStrB vs => some vs | _ => none) .listStrB
      (fun v => match v with | .strList x => some x | _ => none) cell).map fun bb => (some bb, f)
  | .boolArray =>
    (handlePrim .boolArray i b
      (fun bb => match bb with | .listBoolB vs => some vs | _ => none) .listBoolB
      (fun v => match v with | .boolList x => some x | _ => none) cell).map fun bb => (some bb, f)
  | .unsupported _ => .crash

/-- The inner `for (i, postgres_type) in postgres_types.iter().enumerate()`
loop of `rows_to_arrow`, walking the builder and field slots in lockstep with
the column types (`i` is the running column index used for error reporting and
for the `row.try_get(i)` / `column_names.get(i)` lookups). -/
def processCells (names : List String) (row : List PgValue) :
    List PgType → List (Option BuilderM) → List (Option FieldM) → Nat →
    RRes ErrorM (List (Option BuilderM) × List (Option FieldM))
  | [], bs, fs, _ => .ok (bs, fs)
  | _ :: _, [], _, i => .err (.noBuilderForIndex i)
  | _ :: _, _ :: _, [], i => .err (.noArrowFieldForIndex i)
  | ty :: tys, b :: bs, f :: fs, i =>
    (decodeCell ty (names.get? i) b f (row.get? i) i).bind fun bf =>
      (processCells names row tys bs fs (i + 1)).map fun rest =>
        (bf.1 :: rest.1, bf.2 :: rest.2)

/-- The outer `for row in rows` loop of `rows_to_arrow`. -/
def processRows (ts : List PgType) (ns : List String) :
    List (List PgValue) → List (Option BuilderM) → List (Option FieldM) →
    RRes ErrorM (List (Option BuilderM) × List (Option FieldM))
  | [], bs, fs => .ok (bs, fs)
  | row :: rest, bs, fs =>
    (processCells ns row ts bs fs 0).bind fun bf => processRows ts ns rest bf.1 bf.2

/-- The schema-derivation scan over the first row's columns: per column an
optional Arrow field, an optional builder, the vendor type and the name.
Returns `none` when `map_column_type_to_data_type` hits `unimplemented!`. -/
def scanColumns : List (String × PgType) →
    Option (List (Option FieldM) × List (Option BuilderM) × List PgType × List String)
  | [] => some ([], [], [], [])
  | (n, ty) :: rest =>
    match mapColumnTypeToDataType ty with
    | none => none
    | some dt? =>
      match scanColumns rest with
      | none => none
      | some (fs, bs, ts, ns) =>
        some ((dt?.map fun dt => ⟨n, dt, true⟩) :: fs,
          mapDataTypeToArrayBuilderOptional dt? :: bs,
          ty :: ts, n :: ns)

/-- An assembled record batch: schema fields, finished columns, row count. -/
structure PgBatch where
  fields : List FieldM
  columns : List BuilderM
  rowCount : Nat
deriving DecidableEq

/-- Model of `RecordBatch::try_new_with_options` (arrow-rs `try_new_impl`):
the field and column counts must agree; the row count is the one passed in the
options when present, otherwise the first column's length (erroring when there
is neither); every column must match its field's nullability and data type; and
every column's length must equal the row count. -/
def tryNewWithOptions (fields : List FieldM) (cols : List BuilderM) (rowCount? : Option Nat) :
    Except ErrorM PgBatch :=
  if fields.length = cols.length then
    match rowCount?.orElse fun _ => cols.head?.map BuilderM.length with
    | none => .error .failedToBuildRecordBatch
    | some rc =>
      if ((cols.zip fields).all fun cf =>
            (cf.2.nullable || cf.1.nullCount == 0) && (cf.1.dtype == cf.2.dtype)) &&
          (cols.all fun c => c.length == rc) then
        .ok ⟨fields, cols, rc⟩
      else .error .failedToBuildRecordBatch
  else .error .failedToBuildRecordBatch

/-- Model of `rows_to_arrow` for non-composite column types.  `cols` is the
common column metadata of the rows (name and vendor type, taken from
`rows[0].columns()`); `rows` holds the decoded cells of each row.  The schema
scan happens only when `rows` is non-empty; unfinished (`None`) builders and
fields are dropped by `filter_map`/`flatten`; the batch is assembled with
`RecordBatchOptions::new().with_row_count(Some(rows.len()))`. -/
def rowsToArrow (cols : List (String × PgType)) (rows : List (List PgValue)) :
    RRes ErrorM PgBatch :=
  match if rows.isEmpty then some ([], [], [], []) else scanColumns cols with
  | none => .crash
  | some (fs, bs, ts, ns) =>
    (processRows ts ns rows bs fs).bind fun bf =>
      match tryNewWithOptions (bf.2.filterMap id) (bf.1.filterMap id) (some rows.length) with
      | .ok b => .ok b
      | .error e => .err e

end SpicePg

namespace SpiceSF

/-! ## Snowflake connection: `snowflake_schema_cast` and
`cast_sf_timestamp_ntz_to_arrow_timestamp` (snowflakeconn.rs) -/

/-- Data type of a struct child column as far as the cast observes it: it only
ever downcasts child 0 to Int64 and child 1 to Int32; everything else is
opaque. -/
inductive SfChildType where
  | i64T
  | i32T
  | otherChildT (tag : Nat)
deriving DecidableEq

/-- A struct child array: the Int64 epoch buffer, the Int32 fraction buffer, or
an opaque array.  The value buffers are read through `PrimitiveArray::value`
(the struct's own validity decides nullness, so child validity is never
consulted by the source). -/
inductive SfChild where
  | i64Arr (buf : List Int)
  | i32Arr (buf : List Int)
  | otherChild (tag : Nat) (len : Nat)
deriving DecidableEq

/-- Data type of a child array. -/
def SfChild.dtypeOf : SfChild → SfChildType
  | .i64Arr _ => .i64T
  | .i32Arr _ => .i32T
  | .otherChild tag _ => .otherChildT tag

/-- Arrow data types as far as `snowflake_schema_cast` observes them.
`otherT` stands for any non-struct data type the cast leaves untouched. -/
inductive SfDataType where
  | tsMilliT
  | structT (children : List SfChildType)
  | otherT (tag : Nat)
deriving DecidableEq

/-- An Arrow field as observed by `snowflake_schema_cast`: the `logicalType`
component is the result of `field.metadata().get("logicalType")` (the only
metadata key the source reads). -/
structure SfField where
  name : String
  dtype : SfDataType
  nullable : Bool
  logicalType : Option String
deriving DecidableEq

/-- Arrow arrays as observed by the cast: the millisecond-timestamp output
array, a struct array (validity plus child arrays), or an opaque array with
its length and null count. -/
inductive SfArray where
  | tsMilliArr (vals : List (Option Int))
  | structArr (valid : List Bool) (children : List SfChild)
  | otherArr (tag : Nat) (len : Nat) (nulls : Nat)
deriving DecidableEq

/-- Data type of an array. -/
def SfArray.dtypeOf : SfArray → SfDataType
  | .tsMilliArr _ => .tsMilliT
  | .structArr _ cs => .structT (cs.map SfChild.dtypeOf)
  | .otherArr tag _ _ => .otherT tag

/-- Length (`Array::len`). -/
def SfArray.len : SfArray → Nat
  | .tsMilliArr v => v.length
  | .structArr valid _ => valid.length
  | .otherArr _ n _ => n

/-- Null count (`Array::null_count`). -/
def SfArray.nullCount : SfArray → Nat
  | .tsMilliArr v => v.countP (·.isNone)
  | .structArr valid _ => valid.countP fun x => !x
  | .otherArr _ _ n => n

/-- Reasons of the `UnableToCastSnowflakeTimestamp` error. -/
inductive SfCastReason where
  | notAStruct
  | notAStructWith2Columns
  | epochMissing
  | fractionMissing
deriving DecidableEq

/-- The snowflakeconn.rs `Error` variants reachable from `snowflake_schema_cast`. -/
inductive SfError where
  | unableToCastSnowflakeTimestamp (reason : SfCastReason)
  | failedToCreateRecordBatch
deriving DecidableEq

/-- The `for idx in 0..struct_array.len()` loop of
`cast_sf_timestamp_ntz_to_arrow_timestamp`: a null struct slot appends a null,
a valid slot appends `epoch * 1_000 + fraction / 1_000_000` computed in i64:
the division truncates toward zero (`Int.tdiv`, exact, since the fraction is
an i32), while the multiplication and the addition overflow for epochs beyond
`i64::MAX / 1000` — modelled with `wrapTwos 64`, the release-build value
(debug builds panic exactly where the wrap changes the value).  `crash` models
the panic of `PrimitiveArray::value(idx)` on an out-of-range index (child
arrays shorter than the struct). -/
def castCells (e fr : List Int) : List Bool → Nat → RRes SfError (List (Option Int))
  | [], _ => .ok []
  | v :: vs, idx =>
    if v then
      match e.get? idx, fr.get? idx with
      | some ev, some fv =>
        (castCells e fr vs (idx + 1)).map fun rest =>
          some (wrapTwos 64 (wrapTwos 64 (ev * 1000) + Int.tdiv fv 1000000)) :: rest
      | _, _ => .crash
    else (castCells e fr vs (idx + 1)).map fun rest => none :: rest

/-- Model of `cast_sf_timestamp_ntz_to_arrow_timestamp`: downcast to a struct,
require at least two child columns, downcast child 0 to Int64 and child 1 to
Int32, then build the millisecond timestamp array. -/
def castSfTimestampNtzToArrowTimestamp (col : SfArray) : RRes SfError SfArray :=
  match col with
  | .structArr valid children =>
    if children.length < 2 then .err (.unableToCastSnowflakeTimestamp .notAStructWith2Columns)
    else
      match children with
      | .i64Arr e :: c1 :: _ =>
        match c1 with
        | .i32Arr fr => (castCells e fr valid 0).map fun vals => .tsMilliArr vals
        | _ => .err (.unableToCastSnowflakeTimestamp .fractionMissing)
      | _ :: _ :: _ => .err (.unableToCastSnowflakeTimestamp .epochMissing)
      | _ => .crash
  | _ => .err (.unableToCastSnowflakeTimestamp .notAStruct)

/-- The per-field loop of `snowflake_schema_cast`.  A record batch is modelled
as its list of (field, column) pairs, which arrow keeps equally long.  A field
whose `logicalType` metadata lowercases to the string timestamp_ntz is replaced
by `Field::new(name, Timestamp(Millisecond, None), nullable)` (hence without
metadata) and its column is cast; every other pair is pushed unchanged. -/
def schemaCastPairs : List (SfField × SfArray) → RRes SfError (List (SfField × SfArray))
  | [] => .ok []
  | (fld, col) :: rest =>
    let step : RRes SfError (SfField × SfArray) :=
      match fld.logicalType with
      | some lt =>
        if lt.toLower = "timestamp_ntz" then
          (castSfTimestampNtzToArrowTimestamp col).map fun c =>
            (⟨fld.name, .tsMilliT, fld.nullable, none⟩, c)
        else .ok (fld, col)
      | none => .ok (fld, col)
    step.bind fun p => (schemaCastPairs rest).map fun ps => p :: ps

/-- Model of `RecordBatch::try_new` (no row-count option): an empty batch has
no row count source and errors; otherwise every column must match its field's
nullability and data type and have the first column's length. -/
def sfTryNew (pairs : List (SfField × SfArray)) : Except SfError (List (SfField × SfArray)) :=
  match pairs.head? with
  | none => .error .failedToCreateRecordBatch
  | some first =>
    if pairs.all fun p => (p.1.nullable || p.2.nullCount == 0) &&
        (p.2.dtypeOf == p.1.dtype) && (p.2.len == first.2.len) then
      .ok pairs
    else .error .failedToCreateRecordBatch

/-- Model of `snowflake_schema_cast`: transform the pairs, then rebuild the
batch with `RecordBatch::try_new`. -/
def snowflakeSchemaCast (pairs : List (SfField × SfArray)) :
    RRes SfError (List (SfField × SfArray)) :=
  (schemaCastPairs pairs).bind fun out =>
    match sfTryNew out with
    | .ok b => .ok b
    | .error e => .err e

end SpiceSF

namespace SpiceVS

/-! ## Vector search: the embedding loop of
`VectorSearch::calculate_embeddings_per_table` (vector_search.rs).

The `embeddings_to_run` HashMap produced by `find_relevant_embedding_models`
is modelled as an association list of (table, model keys) entries (one entry
per table; HashMap iteration order is arbitrary, and everything proved below
is order-independent).  The `embed` operation (a lock acquisition plus a model
inference, external to the core) is abstracted as a pure function from a model
key to its embedding vector, of arbitrary type `α`. -/

/-- `HashMap::insert`: replace the entry with the given key, or append it. -/
def insertModel {α : Type} (k : String) (v : α) : List (String × α) → List (String × α)
  | [] => [(k, v)]
  | (k', v') :: rest =>
    if k' = k then (k, v) :: rest else (k', v') :: insertModel k v rest

/-- `HashMap::get`: the value stored under a key. -/
def lookupModel {α : Type} (k : String) : List (String × α) → Option α
  | [] => none
  | (k', v') :: rest => if k' = k then some v' else lookupModel k rest

/-- The sequence of model keys on which `embed` is invoked by the
`for model in embeddings_to_run.values().flatten()` loop: one invocation per
occurrence of a model key in any table's model list. -/
def embedCallTrace (runs : List (String × List String)) : List String :=
  (runs.map Prod.snd).flatten

/-- The `embedded_inputs` cache after the embedding loop: every call result is
inserted under its model key (a later call for the same key overwrites the
earlier result). -/
def embeddedInputs {α : Type} (embed : String → α) (runs : List (String × List String)) :
    List (String × α) :=
  (embedCallTrace runs).foldl (fun m k => insertModel k (embed k) m) []

/-- Model of `calculate_embeddings_per_table` (successful-embedding path): run
the embedding loop, then map every table to the cached vectors of its model
keys (`filter_map(|m| embedded_inputs.get(m).cloned())`). -/
def calculateEmbeddingsPerTable {α : Type} (embed : String → α)
    (runs : List (String × List String)) : List (String × List α) :=
  runs.map fun p => (p.1, p.2.filterMap fun m => lookupModel m (embeddedInputs embed runs))

end SpiceVS

namespace SpicePg

/-- The Decimal128 field scale `rows_to_arrow` derives from the first row of a
NUMERIC column: the first cell's declared scale pushed through
`u16 -> i8 try_into().unwrap_or_default()` when the cell is a non-null NUMERIC
value, and `0` when the first cell is NULL (the builder and field are created
on the very first row, null or not). -/
def numericFieldScaleOfFirstCell : Option PgValue → Int
  | some (.numeric raw) =>
    match bigDecimalFromSql raw with
    | .ok d => if d.scale ≤ 127 then (d.scale : Int) else 0
    | _ => 0
  | _ => 0

/-- A BPCHAR row cell as handed to `try_get`: NULL or a string value. -/
def bpcharCell : Option String → PgValue
  | none => .null
  | some s => .str s

end SpicePg

/-! ## Theorems -/

namespace SpicePg

/-- C1: for the NUMERIC wire words `[5, 3, 0x0000, 5, 9345, 1293, 2903, 1293,
932]` the decoder succeeds with unscaled value `934512932903129309320` at
declared scale `5`, whose rational value is exactly `9345129329031293.0932`;
flipping the sign word to `0x4000` yields exactly the negated value. -/
theorem c1_numeric_decode_exact :
    bigDecimalFromSql (wordsToBytes [5, 3, 0, 5, 9345, 1293, 2903, 1293, 932]) =
      .ok ⟨⟨934512932903129309320, 5⟩, 5⟩ ∧
    ((934512932903129309320 : ℚ) / 10 ^ (5 : ℕ) = 93451293290312930932 / 10 ^ (4 : ℕ)) ∧
    bigDecimalFromSql (wordsToBytes [5, 3, 0x4000, 5, 9345, 1293, 2903, 1293, 932]) =
      .ok ⟨⟨-934512932903129309320, 5⟩, 5⟩ ∧
    ((-934512932903129309320 : ℚ) / 10 ^ (5 : ℕ) = -(93451293290312930932 / 10 ^ (4 : ℕ))) :=
  ⟨by decide, by norm_num, by decide, by norm_num⟩

/-- C4 counterexample: a single-row, single-column input whose column type has
no canonical mapping makes `rows_to_arrow` panic (`unimplemented!`), modelled
as `crash`; no record batch with the column dropped is ever produced. -/
theorem c4_unsupported_panics :
    rowsToArrow [("m", PgType.unsupported 0)] [[PgValue.null]] = .crash := by
  decide

/-- C3 counterexample: one row whose only (supported) column is a TIMESTAMP
holding a pre-epoch value: the cell is silently omitted, the lone column ends
up with 0 entries instead of 1, and batch construction fails — `rows_to_arrow`
does not return a record batch at all, contradicting the claim that builder
alignment holds including pre-epoch cells. -/
theorem c3_pre_epoch_misaligns :
    rowsToArrow [("t", PgType.timestamp)] [[PgValue.time (-1)]] =
      .err .failedToBuildRecordBatch := by
  decide

/-- C6 counterexample: a NUMERIC column whose first row is NULL and whose
second row is the scale-5 test value: the batch's field is `Decimal128(38, 0)`
— the scale was fixed to 0 by the leading null row — not `Decimal128(38, 5)`
as the first non-null value's declared scale would demand. -/
theorem c6_null_first_fixes_scale_zero :
    rowsToArrow [("n", PgType.numeric)]
      [[PgValue.null], [PgValue.numeric (wordsToBytes [5, 3, 0, 5, 9345, 1293, 2903, 1293, 932])]] =
      .ok ⟨[⟨"n", .decimal128 38 0, true⟩],
        [.decimal128B 38 0 [none, some 934512932903129309320]], 2⟩ ∧
    DataTypeM.decimal128 38 0 ≠ DataTypeM.decimal128 38 5 :=
  ⟨by decide, by decide⟩

/-- C8 counterexample: a BPCHAR cell ending in a tab: the source's `trim_end`
removes the tab (any Unicode whitespace), so the decoded value is not the
input with only its trailing ASCII spaces removed (which would leave the tab
in place). -/
theorem c8_trims_more_than_spaces :
    rowsToArrow [("c", PgType.bpchar)] [[PgValue.str ("abc\t")]] =
      .ok ⟨[⟨"c", .utf8, true⟩], [.stringB [some ("abc")]], 1⟩ ∧
    ("abc\t" : String) ≠ "abc" :=
  ⟨by decide, by decide⟩

end SpicePg

namespace SpiceVS

/-- C7 counterexample: two tables referencing the same embedding model key:
the `values().flatten()` loop invokes `embed` twice for that key, so the query
text is not embedded at most once per distinct referenced model. -/
theorem c7_embed_called_per_occurrence :
    ¬ ((embedCallTrace [("t1", ["m"]), ("t2", ["m"])]).count ("m") ≤ 1) := by
  decide

end SpiceVS

/-! ## Supporting lemmas -/

/-- Successful bind means the first computation succeeded. -/
theorem RRes.bind_eq_ok {ε α β : Type} {r : RRes ε α} {k : α → RRes ε β} {c : β}
    (h : RRes.bind r k = .ok c) : ∃ a, r = .ok a ∧ k a = .ok c := by
  cases r with
  | crash => simp [RRes.bind] at h
  | err e => simp [RRes.bind] at h
  | ok a => exact ⟨a, rfl, h⟩

/-- An in-bounds `get?` returns the `getD` value. -/
theorem get?_eq_some_getD {α : Type} {l : List α} {n : Nat} (h : n < l.length) (d : α) :
    l.get? n = some (l.getD n d) := by
  rw [List.getD_eq_get?]
  cases hx : l.get? n with
  | none => exact absurd (List.get?_eq_none.mp hx) (by omega)
  | some a => rfl

namespace SpicePg

/-- Every digit the expansion loop emits is a base-10 digit. -/
theorem pushDigitsAux_lt_ten : ∀ (fuel d : Nat), ∀ x ∈ pushDigitsAux fuel d, x < 10 := by
  intro fuel
  induction fuel with
  | zero => intro d x hx; simp [pushDigitsAux] at hx
  | succ n ih =>
    intro d x hx
    simp only [pushDigitsAux] at hx
    split at hx
    · simp at hx
    · rcases List.mem_cons.mp hx with h | h
      · subst h; exact Nat.mod_lt _ (by decide)
      · exact ih _ x h

/-- Every entry of the expanded `u8_digits` buffer is a base-10 digit. -/
theorem numericU8Digits_lt_ten (w : List Nat) : ∀ x ∈ numericU8Digits w, x < 10 := by
  intro x hx
  unfold numericU8Digits at hx
  rw [List.mem_reverse, List.mem_flatten] at hx
  obtain ⟨l, hl, hxl⟩ := hx
  rw [List.mem_map] at hl
  obtain ⟨d, _, rfl⟩ := hl
  unfold pad4 at hxl
  rcases List.mem_append.mp hxl with h | h
  · unfold pushDigitsLSB at h
    exact pushDigitsAux_lt_ten _ _ x h
  · rw [List.eq_of_mem_replicate h]; decide

/-- The resized digit buffer never contains an out-of-range digit, so
`BigInt::from_radix_be` cannot fail on it. -/
theorem numericResizedDigits_valid (w : List Nat) (n m : Nat) :
    (((numericU8Digits w).take n ++ List.replicate m 0).any fun d => 10 ≤ d) = false := by
  rw [List.any_eq_false]
  intro x hx
  rcases List.mem_append.mp hx with h | h
  · have := numericU8Digits_lt_ten w x (List.mem_of_mem_take h)
    simp only [decide_eq_true_eq]
    omega
  · rw [List.eq_of_mem_replicate h]; decide

/-- A column list containing an unmapped vendor type makes the schema scan hit
`unimplemented!`. -/
theorem scanColumns_eq_none_of_unsupported (cols : List (String × PgType))
    (h : ∃ p ∈ cols, ∃ tag, p.2 = PgType.unsupported tag) :
    scanColumns cols = none := by
  induction cols with
  | nil => simp at h
  | cons c rest ih =>
    obtain ⟨p, hp, tag, htag⟩ := h
    rcases List.mem_cons.mp hp with h | h
    · subst h
      rcases p with ⟨n, ty⟩
      simp only at htag
      subst htag
      simp [scanColumns, mapColumnTypeToDataType]
    · rcases c with ⟨n, ty⟩
      simp only [scanColumns]
      rw [ih ⟨p, h, tag, htag⟩]
      cases mapColumnTypeToDataType ty <;> rfl

/-- A batch built by `try_new_with_options` with an explicit row count keeps
the given fields and columns, and its columns all have that row count. -/
theorem tryNewWithOptions_ok {fields : List FieldM} {cols : List BuilderM} {b : PgBatch} {n : Nat}
    (h : tryNewWithOptions fields cols (some n) = .ok b) :
    b.fields = fields ∧ b.columns = cols ∧ b.rowCount = n ∧ ∀ c ∈ cols, c.length = n := by
  unfold tryNewWithOptions at h
  split at h
  case isFalse => exact absurd h (by simp)
  case isTrue hlen =>
    simp only [Option.orElse] at h
    split at h
    case isFalse hcond => exact absurd h (by simp)
    case isTrue hcond =>
      injection h with h
      subst h
      refine ⟨rfl, rfl, rfl, fun c hc => ?_⟩
      have := (List.all_eq_true.mp (Bool.and_elim_right hcond)) c hc
      exact eq_of_beq this

/-- The NUMERIC decode arm never clears an already-created Arrow field, and on
success it always leaves a builder in place. -/
theorem decodeCell_numeric_keeps_field (nm : Option String) (b : Option BuilderM) (ff : FieldM)
    (cell : Option PgValue) (i : Nat) (b' : Option BuilderM) (f' : Option FieldM)
    (h : decodeCell .numeric nm b (some ff) cell i = .ok (b', f')) :
    f' = some ff ∧ ∃ bb, b' = some bb := by
  simp only [decodeCell] at h
  obtain ⟨v, hv, hk⟩ := RRes.bind_eq_ok h
  clear hv h
  revert hk
  generalize (match b with
    | some bb => bb
    | none =>
      if (if (match v with | some d => d.scale | none => 0) ≤ 127 then
            ((match v with | some d => d.scale | none => 0 : Nat) : Int) else 0) ≤ 38 then
        BuilderM.decimal128B 38
          (if (match v with | some d => d.scale | none => 0) ≤ 127 then
            ((match v with | some d => d.scale | none => 0 : Nat) : Int) else 0) []
      else BuilderM.decimal128B 38 10 []) = decB
  intro hk
  cases decB <;> try simp at hk
  case decimal128B p s vals =>
    simp only [RRes.bind] at hk
    cases v with
    | none =>
      simp only [RRes.ok.injEq, Prod.mk.injEq] at hk
      exact ⟨hk.2.symm, _, hk.1.symm⟩
    | some d =>
      simp only [] at hk
      cases htd : d.toDecimal128 with
      | none => rw [htd] at hk; simp at hk
      | some q =>
        rw [htd] at hk
        simp only [RRes.ok.injEq, Prod.mk.injEq] at hk
        exact ⟨hk.2.symm, _, hk.1.symm⟩

/-- On the very first row of a NUMERIC column (no builder, no field yet) the
decode arm creates the field with precision 38 and the scale derived from that
first cell. -/
theorem decodeCell_numeric_first_field (nm : String) (cell : Option PgValue) (i : Nat)
    (b' : Option BuilderM) (f' : Option FieldM)
    (h : decodeCell .numeric (some nm) none none cell i = .ok (b', f')) :
    f' = some ⟨nm, .decimal128 38 (numericFieldScaleOfFirstCell cell), true⟩ ∧
      ∃ bb, b' = some bb := by
  simp only [decodeCell] at h
  cases cell with
  | none => simp [RRes.bind] at h
  | some v =>
    cases v <;> simp only [RRes.bind] at h <;> try simp at h
    case null =>
      exact ⟨h.2.symm.trans (by simp [numericFieldScaleOfFirstCell]), _, h.1.symm⟩
    case numeric raw =>
      cases hbd : bigDecimalFromSql raw with
      | crash => rw [hbd] at h; simp [RRes.bind] at h
      | err e => rw [hbd] at h; simp [RRes.bind] at h
      | ok d =>
        rw [hbd] at h
        simp only [RRes.bind] at h
        split at h
        · cases htd : d.toDecimal128 with
          | none => rw [htd] at h; simp at h
          | some q =>
            rw [htd] at h
            simp only [RRes.ok.injEq, Prod.mk.injEq] at h
            exact ⟨h.2.symm.trans
              (by simp only [numericFieldScaleOfFirstCell, hbd]), _, h.1.symm⟩
        · simp at h

/-- Processing further rows of a single NUMERIC column never changes the field
created at the first row. -/
theorem processRows_numeric_keeps_field (name : String) (rows : List (List PgValue)) :
    ∀ (bb : BuilderM) (ff : FieldM) (bs' : List (Option BuilderM)) (fs' : List (Option FieldM)),
    processRows [.numeric] [name] rows [some bb] [some ff] = .ok (bs', fs') →
    fs' = [some ff] := by
  induction rows with
  | nil =>
    intro bb ff bs' fs' h
    simp only [processRows, RRes.ok.injEq, Prod.mk.injEq] at h
    exact h.2.symm
  | cons row rest ih =>
    intro bb ff bs' fs' h
    simp only [processRows] at h
    obtain ⟨bf, hcell, hrest⟩ := RRes.bind_eq_ok h
    simp only [processCells, RRes.map] at hcell
    obtain ⟨bf0, hdec, hwrap⟩ := RRes.bind_eq_ok hcell
    simp only [RRes.ok.injEq] at hwrap
    obtain ⟨hf0, hbb0⟩ := decodeCell_numeric_keeps_field _ _ _ _ _ _ _ hdec
    obtain ⟨bb1, hbb1⟩ := hbb0
    rw [← hwrap] at hrest
    rw [hbb1, hf0] at hrest
    exact ih bb1 ff bs' fs' hrest

/-- Decoding a whole single-BPCHAR-column row set appends, per row, the
`trim_end`-ed value or a null. -/
theorem processRows_bpchar (name : String) (cells : List (Option String)) :
    ∀ (acc : List (Option String)) (ff : FieldM),
    processRows [.bpchar] [name] (cells.map fun c => [bpcharCell c])
      [some (.stringB acc)] [some ff] =
    .ok ([some (.stringB (acc ++ cells.map (Option.map rustTrimEnd)))], [some ff]) := by
  induction cells with
  | nil => intro acc ff; simp [processRows]
  | cons c cs ih =>
    intro acc ff
    simp only [List.map_cons, processRows, processCells, RRes.map, RRes.bind]
    cases c with
    | none =>
      simp only [bpcharCell, decodeCell, RRes.bind, RRes.map, List.get?]
      refine (ih (acc ++ [none]) ff).trans ?_
      simp
    | some str0 =>
      simp only [bpcharCell, decodeCell, RRes.bind, RRes.map, List.get?]
      refine (ih (acc ++ [some (rustTrimEnd str0)]) ff).trans ?_
      simp

/-- The first element surviving `dropWhile` does not satisfy the predicate. -/
theorem head?_dropWhile_not (p : Char → Bool) (l : List Char) :
    ((l.dropWhile p).head?.all fun c => !p c) = true := by
  induction l with
  | nil => rfl
  | cons a l ih =>
    rw [List.dropWhile_cons]
    by_cases h : p a = true
    · rw [if_pos h]; exact ih
    · rw [if_neg h]
      simp only [List.head?, Option.all]
      simp [h]

/-- `rustTrimEnd` removes exactly the maximal run of trailing whitespace: the
input splits into the trimmed result followed by whitespace characters only,
and the result does not end in whitespace. -/
theorem rustTrimEnd_spec (s : String) :
    s.data = (rustTrimEnd s).data ++ (s.data.reverse.takeWhile isRustWhitespace).reverse ∧
    ((s.data.reverse.takeWhile isRustWhitespace).all isRustWhitespace = true) ∧
    (((rustTrimEnd s).data.getLast?.all fun c => !isRustWhitespace c) = true) := by
  refine ⟨?_, ?_, ?_⟩
  · conv_lhs => rw [← List.reverse_reverse s.data,
      ← List.takeWhile_append_dropWhile isRustWhitespace s.data.reverse]
    rw [List.reverse_append]
    rfl
  · rw [List.all_eq_true]
    intro c hc
    exact List.mem_takeWhile_imp hc
  · show (((s.data.reverse.dropWhile isRustWhitespace).reverse).getLast?.all
      fun c => !isRustWhitespace c) = true
    rw [List.getLast?_reverse]
    exact head?_dropWhile_not isRustWhitespace s.data.reverse

end SpicePg

namespace SpicePg

/-! ## Claim theorems over the PostgreSQL decoder -/

/-- C5: on inputs the decoder can process without panicking (all header and
digit words present, a digit-count word small enough that the u16 loop bound
`4 + base_10_000_digit_count` does not overflow, non-negative resize length),
`from_sql` returns the
`FailedToParseBigDecimalFromPostgres` error exactly when the sign word is
neither `0x0000` nor `0x4000`; sign `0x0000` succeeds with a non-negative
value and sign `0x4000` with a non-positive one, both at the declared scale
`w3` (the digits produced by the expansion loop are always valid base-10
digits, so `from_radix_be` itself never fails). -/
theorem c5_numeric_sign_rejection (raw : List Nat)
    (h1 : 4 ≤ (numericWords raw).length)
    (h0 : 4 + (numericWords raw).getD 0 0 ≤ 65535)
    (h2 : 4 + (numericWords raw).getD 0 0 ≤ (numericWords raw).length)
    (h3 : 0 ≤ numericResizeLen (numericWords raw)) :
    ((bigDecimalFromSql raw).isErr = true ↔
      ((numericWords raw).getD 2 0 ≠ 0 ∧ (numericWords raw).getD 2 0 ≠ 0x4000)) ∧
    ((bigDecimalFromSql raw).isErr = true →
      bigDecimalFromSql raw = .err (.failedToParseBigDecimalFromPostgres raw)) ∧
    ((numericWords raw).getD 2 0 = 0 →
      ∃ d, bigDecimalFromSql raw = .ok d ∧ 0 ≤ d.inner.intVal ∧
        d.scale = (numericWords raw).getD 3 0) ∧
    ((numericWords raw).getD 2 0 = 0x4000 →
      ∃ d, bigDecimalFromSql raw = .ok d ∧ d.inner.intVal ≤ 0 ∧
        d.scale = (numericWords raw).getD 3 0) := by
  have hfr : ∀ neg, fromRadixBe neg
      ((numericU8Digits (numericWords raw)).take (numericResizeLen (numericWords raw)).toNat ++
        List.replicate ((numericResizeLen (numericWords raw)).toNat -
          (numericU8Digits (numericWords raw)).length) 0) =
      some ((if neg then -1 else 1) *
        ((((numericU8Digits (numericWords raw)).take (numericResizeLen (numericWords raw)).toNat ++
          List.replicate ((numericResizeLen (numericWords raw)).toNat -
            (numericU8Digits (numericWords raw)).length) 0).foldl
              (fun acc d => acc * 10 + d) 0 : Nat) : Int)) := by
    intro neg
    unfold fromRadixBe
    rw [numericResizedDigits_valid]
    simp
  unfold bigDecimalFromSql
  rw [if_pos h1, if_pos h0, if_pos h2, if_pos h3, if_pos h3]
  by_cases hs : (numericWords raw).getD 2 0 = 0x4000 ∨ (numericWords raw).getD 2 0 = 0
  · rw [if_pos hs, hfr]
    refine ⟨?_, ?_, ?_, ?_⟩
    · constructor
      · intro h; simp [RRes.isErr] at h
      · intro h
        rcases hs with hs | hs
        · exact absurd hs h.2
        · exact absurd hs h.1
    · intro h; simp [RRes.isErr] at h
    · intro h0
      refine ⟨_, rfl, ?_, rfl⟩
      simp only [h0]
      norm_num
    · intro h4
      refine ⟨_, rfl, ?_, rfl⟩
      simp only [h4]
      norm_num
  · rw [if_neg hs]
    push_neg at hs
    refine ⟨?_, ?_, ?_, ?_⟩
    · exact ⟨fun _ => ⟨hs.2, hs.1⟩, fun _ => rfl⟩
    · intro _; rfl
    · intro h0; exact absurd h0 hs.2
    · intro h4; exact absurd h4 hs.1

/-- Witness for C5: a well-formed header whose sign word is 1 is rejected. -/
theorem c5_numeric_sign_rejection_witness :
    (bigDecimalFromSql (wordsToBytes [0, 0, 1, 0])).isErr = true :=
  (c5_numeric_sign_rejection (wordsToBytes [0, 0, 1, 0])
    (by decide) (by decide) (by decide) (by decide)).1.mpr (by decide)

/-- C9: in the TIMESTAMP / TIMESTAMPTZ arm of `rows_to_arrow`, a non-null cell
before the Unix epoch appends neither a value nor a null (the builder is left
untouched); a post-epoch cell appends its millisecond timestamp; a NULL cell
appends a null. -/
theorem c9_timestamp_cell_handling (ty : PgType) (name? : Option String)
    (f : Option FieldM) (vals : List (Option Int)) (t : Int) (i : Nat)
    (hty : ty = .timestamp ∨ ty = .timestamptz) :
    (t < 0 → decodeCell ty name? (some (.tsMilliB vals)) f (some (.time t)) i =
      .ok (some (.tsMilliB vals), f)) ∧
    (0 ≤ t → t < 2 ^ 63 → decodeCell ty name? (some (.tsMilliB vals)) f (some (.time t)) i =
      .ok (some (.tsMilliB (vals ++ [some t])), f)) ∧
    (decodeCell ty name? (some (.tsMilliB vals)) f (some .null) i =
      .ok (some (.tsMilliB (vals ++ [none])), f)) := by
  rcases hty with h | h <;> subst h <;>
    refine ⟨fun h1 => ?_, fun h1 h2 => ?_, ?_⟩ <;>
    simp_all [decodeCell, handleTimestamp, RRes.map, not_le.mpr]

/-- Witness for C9: a pre-epoch TIMESTAMP cell leaves the builder empty. -/
theorem c9_timestamp_cell_handling_witness :
    decodeCell .timestamp none (some (.tsMilliB [])) none (some (.time (-1))) 0 =
      .ok (some (.tsMilliB []), none) :=
  (c9_timestamp_cell_handling .timestamp none none [] (-1) 0 (Or.inl rfl)).1 (by decide)

/-- C4 (amended): `rows_to_arrow` panics (`unimplemented!`) whenever the row
set is non-empty and some column's vendor type has no canonical mapping; no
batch is produced and no column is dropped. -/
theorem c4_unsupported_always_panics (cols : List (String × PgType))
    (rows : List (List PgValue)) (hne : rows ≠ [])
    (hun : ∃ p ∈ cols, ∃ tag, p.2 = PgType.unsupported tag) :
    rowsToArrow cols rows = .crash := by
  unfold rowsToArrow
  have he : rows.isEmpty = false := by
    cases rows with
    | nil => exact absurd rfl hne
    | cons a b => rfl
  rw [he]
  simp only [Bool.false_eq_true, if_false]
  rw [scanColumns_eq_none_of_unsupported cols hun]

/-- Witness for C4: a two-column row set with one unmapped column panics. -/
theorem c4_unsupported_always_panics_witness :
    rowsToArrow [("k", PgType.unsupported 1), ("x", PgType.int2)]
      [[PgValue.null, PgValue.i16 7]] = .crash :=
  c4_unsupported_always_panics _ _ (by decide)
    ⟨("k", PgType.unsupported 1), List.mem_cons_self _ _, 1, rfl⟩

/-- C3 (amended): whenever `rows_to_arrow` does return a record batch, the
batch's row count is the number of input rows and every column has exactly
that many entries (nulls included) — the final `try_new_with_options` call
with `row_count = rows.len()` enforces it; and on a concrete mixed row set
with nulls (including a NUMERIC and a post-epoch TIMESTAMPTZ column) decoding
succeeds with all four columns at 2 entries.  A non-null pre-epoch timestamp
cell instead makes batch construction fail (see the counterexample), so
alignment cannot be promised for such inputs as the claim stated. -/
theorem c3_batch_alignment :
    (∀ (cols : List (String × PgType)) (rows : List (List PgValue)) (b : PgBatch),
      rowsToArrow cols rows = .ok b →
      b.rowCount = rows.length ∧ ∀ c ∈ b.columns, c.length = rows.length) ∧
    rowsToArrow
      [("a", PgType.int4), ("b", PgType.text), ("t", PgType.timestamptz), ("n", PgType.numeric)]
      [[PgValue.i32 5, PgValue.null, PgValue.time 1683037800000,
        PgValue.numeric (wordsToBytes [5, 3, 0, 5, 9345, 1293, 2903, 1293, 932])],
       [PgValue.null, PgValue.str ("x"), PgValue.null, PgValue.null]] =
      .ok ⟨[⟨"a", .int32, true⟩, ⟨"b", .utf8, true⟩, ⟨"t", .timestampMilli, true⟩,
            ⟨"n", .decimal128 38 5, true⟩],
           [.int32B [some 5, none], .stringB [none, some ("x")],
            .tsMilliB [some 1683037800000, none],
            .decimal128B 38 5 [some 934512932903129309320, none]], 2⟩ := by
  constructor
  · intro cols rows b h
    unfold rowsToArrow at h
    generalize hscan : (if rows.isEmpty then some ([], [], [], []) else scanColumns cols) =
      scanRes at h
    cases scanRes with
    | none => exact absurd h (by simp)
    | some quad =>
      obtain ⟨fs, bs, ts, ns⟩ := quad
      simp only at h
      generalize hproc : processRows ts ns rows bs fs = procRes at h
      cases procRes with
      | crash => exact absurd h (by simp [RRes.bind])
      | err e => exact absurd h (by simp [RRes.bind])
      | ok bf =>
        simp only [RRes.bind] at h
        generalize htn : tryNewWithOptions (bf.2.filterMap id) (bf.1.filterMap id)
          (some rows.length) = tnRes at h
        cases tnRes with
        | error e => exact absurd h (by simp)
        | ok b' =>
          simp only at h
          injection h with h
          subst h
          obtain ⟨-, hcols, hrc, hlen⟩ := tryNewWithOptions_ok htn
          exact ⟨hrc, by rw [hcols]; exact hlen⟩
  · decide

/-- Witness for C3: the alignment consequence applied to a one-column batch. -/
theorem c3_batch_alignment_witness :
    (⟨[⟨"x", DataTypeM.int16, true⟩], [.int16B [some 1]], 1⟩ : PgBatch).rowCount =
      [[PgValue.i16 1]].length ∧
    ∀ c ∈ (⟨[⟨"x", DataTypeM.int16, true⟩], [.int16B [some 1]], 1⟩ : PgBatch).columns,
      c.length = [[PgValue.i16 1]].length :=
  c3_batch_alignment.1 [("x", PgType.int2)] [[PgValue.i16 1]] _ (by decide)

/-- C6 (amended): for a NUMERIC column the Decimal128 field always has
precision 38, and its scale is fixed by the FIRST row, not the first non-null
row: the declared scale of the first cell when it is non-null (pushed through
the `u16 → i8` conversion), and 0 when the first cell is NULL, whatever the
later rows hold. -/
theorem c6_scale_from_first_row (name : String) (first : List PgValue)
    (rest : List (List PgValue)) (b : PgBatch)
    (h : rowsToArrow [(name, PgType.numeric)] (first :: rest) = .ok b) :
    b.fields.map FieldM.dtype =
      [.decimal128 38 (numericFieldScaleOfFirstCell (first.get? 0))] := by
  unfold rowsToArrow at h
  have hscan : (if (first :: rest).isEmpty then some ([], [], [], [])
      else scanColumns [(name, PgType.numeric)]) =
      some ([none], [none], [PgType.numeric], [name]) := rfl
  rw [hscan] at h
  simp only at h
  obtain ⟨bf, hproc, htn⟩ := RRes.bind_eq_ok h
  simp only [processRows] at hproc
  obtain ⟨bf1, hcell, hrest⟩ := RRes.bind_eq_ok hproc
  simp only [processCells, RRes.map, RRes.bind] at hcell
  obtain ⟨bf0, hdec, hwrap⟩ := RRes.bind_eq_ok hcell
  obtain ⟨hf0, bb1, hbb1⟩ :=
    decodeCell_numeric_first_field name (first.get? 0) 0 bf0.1 bf0.2 (by
      have : bf0 = (bf0.1, bf0.2) := rfl
      rw [← this]
      exact hdec)
  simp only [RRes.map, RRes.ok.injEq] at hwrap
  rw [← hwrap] at hrest
  simp only at hrest
  rw [hbb1, hf0] at hrest
  have hfs := processRows_numeric_keeps_field name rest bb1 _ bf.1 bf.2 (by
    have : bf = (bf.1, bf.2) := rfl
    rw [← this]
    exact hrest)
  revert htn
  generalize htnr : tryNewWithOptions (bf.2.filterMap id) (bf.1.filterMap id)
    (some (first :: rest).length) = tn
  intro htn
  cases tn with
  | error e => simp at htn
  | ok b' =>
    simp only at htn
    injection htn with htn
    subst htn
    obtain ⟨hbf, -, -, -⟩ := tryNewWithOptions_ok htnr
    rw [hbf, hfs]
    rfl

/-- Witness for C6: a NUMERIC column whose first row is the scale-5 test value
yields the field type Decimal128(38, 5). -/
theorem c6_scale_from_first_row_witness :
    (⟨[⟨"n", .decimal128 38 5, true⟩],
      [.decimal128B 38 5 [some 934512932903129309320]], 1⟩ : PgBatch).fields.map
        FieldM.dtype =
      [.decimal128 38 (numericFieldScaleOfFirstCell
        ([PgValue.numeric (wordsToBytes [5, 3, 0, 5, 9345, 1293, 2903, 1293, 932])].get? 0))] :=
  c6_scale_from_first_row ("n")
    [PgValue.numeric (wordsToBytes [5, 3, 0, 5, 9345, 1293, 2903, 1293, 932])] [] _ (by decide)

/-- C8 (amended): a decoded non-null BPCHAR cell equals the input with its
trailing Unicode-whitespace characters (Rust `char::is_whitespace`, hence in
particular trailing ASCII spaces, but also tabs and other whitespace) removed:
decoding a single-BPCHAR-column row set maps every non-null cell through
`rustTrimEnd` and keeps nulls; `rustTrimEnd` splits the input into the result
followed by whitespace only, with the result not ending in whitespace; and the
input consisting of the word abc plus three trailing spaces decodes to abc. -/
theorem c8_bpchar_trim_whitespace (cells : List (Option String)) (s : String)
    (hne : cells ≠ []) :
    rowsToArrow [("c", PgType.bpchar)] (cells.map fun c => [bpcharCell c]) =
      .ok ⟨[⟨"c", .utf8, true⟩], [.stringB (cells.map (Option.map rustTrimEnd))],
        cells.length⟩ ∧
    s.data = (rustTrimEnd s).data ++ (s.data.reverse.takeWhile isRustWhitespace).reverse ∧
    ((s.data.reverse.takeWhile isRustWhitespace).all isRustWhitespace = true) ∧
    (((rustTrimEnd s).data.getLast?.all fun c => !isRustWhitespace c) = true) ∧
    rustTrimEnd ("abc   ") = "abc" := by
  refine ⟨?_, (rustTrimEnd_spec s).1, (rustTrimEnd_spec s).2.1, (rustTrimEnd_spec s).2.2,
    by decide⟩
  unfold rowsToArrow
  have hie : (cells.map fun c => [bpcharCell c]).isEmpty = false := by
    cases cells with
    | nil => exact absurd rfl hne
    | cons a b => rfl
  rw [hie]
  simp only [Bool.false_eq_true, if_false]
  have hscan : scanColumns [("c", PgType.bpchar)] =
      some ([some ⟨"c", .utf8, true⟩], [some (.stringB [])], [.bpchar], ["c"]) := rfl
  rw [hscan]
  simp only
  rw [processRows_bpchar ("c") cells [] ⟨"c", .utf8, true⟩]
  simp only [RRes.bind, List.nil_append, List.filterMap, id]
  unfold tryNewWithOptions
  simp [BuilderM.length, BuilderM.dtype, BuilderM.nullCount, Option.orElse, List.length_map]

/-- Witness for C8: two rows, the word abc with three trailing spaces and a
NULL, decode to the trimmed string and a null. -/
theorem c8_bpchar_trim_whitespace_witness :
    rowsToArrow [("c", PgType.bpchar)]
      ([some ("abc   "), none].map fun c => [bpcharCell c]) =
      .ok ⟨[⟨"c", .utf8, true⟩],
        [.stringB ([some ("abc   "), none].map (Option.map rustTrimEnd))], 2⟩ ∧
    ("x" : String).data = (rustTrimEnd ("x")).data ++
      (("x" : String).data.reverse.takeWhile isRustWhitespace).reverse ∧
    ((("x" : String).data.reverse.takeWhile isRustWhitespace).all isRustWhitespace = true) ∧
    (((rustTrimEnd ("x")).data.getLast?.all fun c => !isRustWhitespace c) = true) ∧
    rustTrimEnd ("abc   ") = "abc" :=
  c8_bpchar_trim_whitespace [some ("abc   "), none] ("x") (by decide)

end SpicePg

namespace SpiceSF

/-! ## Claim theorems over the Snowflake cast -/

/-- Within the i64 range the two's-complement wrap is the identity: no
overflow, so debug and release builds agree on the exact value. -/
theorem wrapTwos_64_eq_self {x : Int} (h1 : -(2 ^ 63) ≤ x) (h2 : x < 2 ^ 63) :
    wrapTwos 64 x = x := by
  unfold wrapTwos
  have e1 : (2 : Int) ^ (64 - 1) = 9223372036854775808 := by norm_num
  have e2 : (2 : Int) ^ 64 = 18446744073709551616 := by norm_num
  have e3 : (2 : Int) ^ 63 = 9223372036854775808 := by norm_num
  rw [e1, e2]
  rw [e3] at h1 h2
  rw [Int.emod_eq_of_lt (by omega) (by omega)]
  omega

/-- The cast loop produces, in order, one entry per struct slot: a null for a
null slot and, provided every valid slot keeps the i64 arithmetic in range (so
neither build mode overflows), the exact millisecond value for a valid slot. -/
theorem castCells_exact (valid : List Bool) (e fr : List Int) :
    ∀ (idx : Nat), idx + valid.length ≤ e.length → idx + valid.length ≤ fr.length →
    (∀ j, valid.getD j false = true →
      -(2 ^ 63) ≤ e.getD (idx + j) 0 * 1000 ∧ e.getD (idx + j) 0 * 1000 < 2 ^ 63 ∧
      -(2 ^ 63) ≤ e.getD (idx + j) 0 * 1000 + Int.tdiv (fr.getD (idx + j) 0) 1000000 ∧
      e.getD (idx + j) 0 * 1000 + Int.tdiv (fr.getD (idx + j) 0) 1000000 < 2 ^ 63) →
    castCells e fr valid idx =
      .ok ((List.enumFrom idx valid).map fun p =>
        if p.2 then some ((e.getD p.1 0) * 1000 + Int.tdiv (fr.getD p.1 0) 1000000)
        else none) := by
  induction valid with
  | nil => intro idx he hf hr; rfl
  | cons v vs ih =>
    intro idx he hf hr
    simp only [List.length_cons] at he hf
    have hrtail : ∀ j, vs.getD j false = true →
        -(2 ^ 63) ≤ e.getD (idx + 1 + j) 0 * 1000 ∧
        e.getD (idx + 1 + j) 0 * 1000 < 2 ^ 63 ∧
        -(2 ^ 63) ≤ e.getD (idx + 1 + j) 0 * 1000 +
          Int.tdiv (fr.getD (idx + 1 + j) 0) 1000000 ∧
        e.getD (idx + 1 + j) 0 * 1000 +
          Int.tdiv (fr.getD (idx + 1 + j) 0) 1000000 < 2 ^ 63 := by
      intro j hj
      have h := hr (j + 1) (by simpa using hj)
      have hidx : idx + (j + 1) = idx + 1 + j := by omega
      rw [hidx] at h
      exact h
    simp only [castCells]
    by_cases hv : v = true
    · rw [if_pos hv]
      rw [get?_eq_some_getD (by omega) 0, get?_eq_some_getD (by omega) 0]
      simp only []
      rw [ih (idx + 1) (by omega) (by omega) hrtail]
      have h0 := hr 0 (by simpa using hv)
      rw [Nat.add_zero] at h0
      obtain ⟨ha, hb, hc, hd⟩ := h0
      simp only [List.getD_eq_getElem?_getD] at ha hb hc hd
      simp [RRes.map, List.enumFrom, hv, wrapTwos_64_eq_self ha hb,
        wrapTwos_64_eq_self hc hd]
    · rw [if_neg hv]
      rw [ih (idx + 1) (by omega) (by omega) hrtail]
      simp [RRes.map, List.enumFrom, hv]

/-- C2: for every TIMESTAMP_NTZ struct column whose first two children are the
i64 epoch array and the i32 fraction array (child lengths matching the struct)
and whose valid rows keep the i64 computation `epoch * 1000 + fraction /
1_000_000` in range (neither the multiplication nor the addition overflows —
true of every epoch within roughly 292 million years of 1970; beyond that the
source panics in debug builds and wraps in release builds), the cast succeeds
and produces a millisecond column in which row `r` is exactly
`epoch(r) * 1000 + fraction(r) / 1_000_000` (truncating division) when the
struct slot is valid and null when it is null; in particular the epochs
`[1696164330, null, 1714647301]` with fractions `[0, null, 739000000]` yield
`[1696164330000, null, 1714647301739]`. -/
theorem c2_timestamp_ntz_cast (valid : List Bool) (e fr : List Int) (rest : List SfChild)
    (he : e.length = valid.length) (hf : fr.length = valid.length)
    (hrange : ∀ j, valid.getD j false = true →
      -(2 ^ 63) ≤ e.getD j 0 * 1000 ∧ e.getD j 0 * 1000 < 2 ^ 63 ∧
      -(2 ^ 63) ≤ e.getD j 0 * 1000 + Int.tdiv (fr.getD j 0) 1000000 ∧
      e.getD j 0 * 1000 + Int.tdiv (fr.getD j 0) 1000000 < 2 ^ 63) :
    castSfTimestampNtzToArrowTimestamp (.structArr valid (.i64Arr e :: .i32Arr fr :: rest)) =
      .ok (.tsMilliArr ((List.enumFrom 0 valid).map fun p =>
        if p.2 then some ((e.getD p.1 0) * 1000 + Int.tdiv (fr.getD p.1 0) 1000000)
        else none)) ∧
    castSfTimestampNtzToArrowTimestamp (.structArr [true, false, true]
        [.i64Arr [1696164330, 0, 1714647301], .i32Arr [0, 0, 739000000]]) =
      .ok (.tsMilliArr [some 1696164330000, none, some 1714647301739]) := by
  constructor
  · simp only [castSfTimestampNtzToArrowTimestamp]
    rw [if_neg (by simp)]
    rw [castCells_exact valid e fr 0 (by omega) (by omega)
      (fun j hj => by simpa using hrange j hj)]
    rfl
  · decide

/-- Witness for C2: the S3 scenario. -/
theorem c2_timestamp_ntz_cast_witness :
    castSfTimestampNtzToArrowTimestamp (.structArr [true, false, true]
        [.i64Arr [1696164330, 0, 1714647301], .i32Arr [0, 0, 739000000]]) =
      .ok (.tsMilliArr [some 1696164330000, none, some 1714647301739]) :=
  (c2_timestamp_ntz_cast [true, false, true] [1696164330, 0, 1714647301]
    [0, 0, 739000000] [] (by decide) (by decide) (fun j hj => by
      rcases j with _ | _ | _ | n
      · decide
      · exact absurd hj (by decide)
      · decide
      · simp [List.getD] at hj)).2

/-- A successful `RecordBatch::try_new` returns exactly the pairs it was given. -/
theorem sfTryNew_ok {pairs r : List (SfField × SfArray)} (h : sfTryNew pairs = .ok r) :
    r = pairs := by
  unfold sfTryNew at h
  cases pairs with
  | nil => simp at h
  | cons p rest =>
    simp only [List.head?] at h
    split at h
    · injection h with h; exact h.symm
    · exact absurd h (by simp)

/-- The per-field loop leaves every pair whose field carries no
timestamp_ntz logical type untouched, at its position. -/
theorem schemaCastPairs_notNtz_get (pairs : List (SfField × SfArray)) :
    ∀ (out : List (SfField × SfArray)), schemaCastPairs pairs = .ok out →
    out.length = pairs.length ∧
    ∀ (i : Nat) (fld : SfField) (col : SfArray), pairs.get? i = some (fld, col) →
      (∀ lt, fld.logicalType = some lt → ¬ lt.toLower = "timestamp_ntz") →
      out.get? i = some (fld, col) := by
  induction pairs with
  | nil =>
    intro out h
    simp only [schemaCastPairs, RRes.ok.injEq] at h
    subst h
    exact ⟨rfl, by intro i fld col hg; simp at hg⟩
  | cons pc rest ih =>
    intro out h
    obtain ⟨fld0, col0⟩ := pc
    simp only [schemaCastPairs] at h
    obtain ⟨p, hstep, hmap⟩ := RRes.bind_eq_ok h
    cases hr : schemaCastPairs rest with
    | crash => rw [hr] at hmap; simp [RRes.map] at hmap
    | err e => rw [hr] at hmap; simp [RRes.map] at hmap
    | ok outr =>
      rw [hr] at hmap
      simp only [RRes.map, RRes.ok.injEq] at hmap
      subst hmap
      obtain ⟨hlen, hget⟩ := ih outr hr
      refine ⟨by simp [hlen], ?_⟩
      intro i fld col hg hnm
      cases i with
      | zero =>
        simp only [List.get?] at hg ⊢
        injection hg with hg
        have hpeq : p = (fld0, col0) := by
          revert hstep
          cases hl : fld0.logicalType with
          | none => intro hstep; injection hstep with hstep; exact hstep.symm
          | some lt =>
            intro hstep
            simp only [] at hstep
            rw [if_neg (by
              have hfc : (fld0, col0) = (fld, col) := hg
              injection hfc with ha hb
              subst ha
              exact hnm lt hl)] at hstep
            injection hstep with hstep
            exact hstep.symm
        rw [hpeq, hg]
      | succ n =>
        simp only [List.get?] at hg ⊢
        exact hget n fld col hg hnm

/-- C10: whenever `snowflake_schema_cast` returns a batch, it has as many
columns as the input, and every (field, column) pair whose field metadata does
not carry a `logicalType` lowercasing to timestamp_ntz reappears unchanged at
the same position. -/
theorem c10_schema_cast_identity (pairs out : List (SfField × SfArray))
    (h : snowflakeSchemaCast pairs = .ok out) (i : Nat) (fld : SfField) (col : SfArray)
    (hg : pairs.get? i = some (fld, col))
    (hnm : ∀ lt, fld.logicalType = some lt → ¬ lt.toLower = "timestamp_ntz") :
    out.length = pairs.length ∧ out.get? i = some (fld, col) := by
  unfold snowflakeSchemaCast at h
  obtain ⟨mid, hmid, htn⟩ := RRes.bind_eq_ok h
  have hout : mid = out := by
    revert htn
    cases htn2 : sfTryNew mid with
    | error e => intro htn; simp at htn
    | ok b' =>
      intro htn
      simp only at htn
      injection htn with htn
      rw [← htn]
      exact (sfTryNew_ok htn2).symm
  subst hout
  obtain ⟨hlen, hget⟩ := schemaCastPairs_notNtz_get pairs mid hmid
  exact ⟨hlen, hget i fld col hg hnm⟩

/-- Witness for C10: a one-column batch with no logicalType metadata passes
through unchanged. -/
theorem c10_schema_cast_identity_witness :
    ([(⟨"a", SfDataType.otherT 0, true, none⟩, SfArray.otherArr 0 3 0)] :
        List (SfField × SfArray)).length =
      ([(⟨"a", SfDataType.otherT 0, true, none⟩, SfArray.otherArr 0 3 0)] :
        List (SfField × SfArray)).length ∧
    ([(⟨"a", SfDataType.otherT 0, true, none⟩, SfArray.otherArr 0 3 0)] :
        List (SfField × SfArray)).get? 0 =
      some (⟨"a", SfDataType.otherT 0, true, none⟩, SfArray.otherArr 0 3 0) :=
  c10_schema_cast_identity
    [(⟨"a", SfDataType.otherT 0, true, none⟩, SfArray.otherArr 0 3 0)]
    [(⟨"a", SfDataType.otherT 0, true, none⟩, SfArray.otherArr 0 3 0)]
    (by decide) 0 ⟨"a", SfDataType.otherT 0, true, none⟩
    (SfArray.otherArr 0 3 0) (by decide) (fun lt hlt => by simp at hlt)

end SpiceSF

namespace SpiceVS

/-! ## Claim theorems over the vector-search embedding loop -/

/-- `HashMap::get` after `HashMap::insert`. -/
theorem lookupModel_insertModel {α : Type} (k k' : String) (v : α) (m : List (String × α)) :
    lookupModel k (insertModel k' v m) = if k' = k then some v else lookupModel k m := by
  induction m with
  | nil => simp [insertModel, lookupModel]
  | cons p rest ih =>
    obtain ⟨k0, v0⟩ := p
    simp only [insertModel]
    by_cases h0 : k0 = k'
    · subst h0
      rw [if_pos rfl]
      by_cases h1 : k0 = k
      · simp [lookupModel, h1]
      · simp [lookupModel, h1]
    · rw [if_neg h0]
      by_cases h1 : k0 = k
      · have h2 : ¬ k' = k := fun hc => h0 (by rw [h1, hc])
        simp [lookupModel, h1, h2]
      · simp [lookupModel, h1, ih]

/-- Looking up the cache produced by the embedding loop. -/
theorem lookupModel_foldl_insert {α : Type} (embed : String → α) (ks : List String) :
    ∀ (init : List (String × α)) (k : String),
    lookupModel k (ks.foldl (fun m k' => insertModel k' (embed k') m) init) =
      if k ∈ ks then some (embed k) else lookupModel k init := by
  induction ks with
  | nil => intro init k; simp
  | cons k0 ks ih =>
    intro init k
    simp only [List.foldl_cons]
    rw [ih]
    by_cases hks : k ∈ ks
    · rw [if_pos hks, if_pos (List.mem_cons_of_mem _ hks)]
    · rw [if_neg hks, lookupModel_insertModel]
      by_cases h0 : k0 = k
      · subst h0
        rw [if_pos rfl, if_pos (List.mem_cons_self _ _)]
      · rw [if_neg h0, if_neg (by
          intro hc
          rcases List.mem_cons.mp hc with hc | hc
          · exact h0 hc.symm
          · exact hks hc)]

/-- Every model key that occurs in the call trace has its embedding cached. -/
theorem lookupModel_embeddedInputs {α : Type} (embed : String → α)
    (runs : List (String × List String)) (m : String) (hm : m ∈ embedCallTrace runs) :
    lookupModel m (embeddedInputs embed runs) = some (embed m) := by
  unfold embeddedInputs
  rw [lookupModel_foldl_insert, if_pos hm]

/-- Per-table retrieval from the cache recovers exactly the per-model
embeddings. -/
theorem filterMap_lookup_eq_map {α : Type} (embed : String → α)
    (runs : List (String × List String)) :
    ∀ (ms : List String), (∀ m ∈ ms, m ∈ embedCallTrace runs) →
    ms.filterMap (fun m => lookupModel m (embeddedInputs embed runs)) = ms.map embed := by
  intro ms
  induction ms with
  | nil => intro _; rfl
  | cons m ms ih =>
    intro hmem
    rw [List.filterMap_cons, List.map_cons]
    rw [lookupModel_embeddedInputs embed runs m (hmem m (List.mem_cons_self _ _))]
    rw [ih fun x hx => hmem x (List.mem_cons_of_mem _ hx)]

/-- C7 (amended): the embedding loop invokes `embed` once per occurrence of a
model key across the tables' model lists — `k` tables referencing the same
model cause `k` invocations, not one — while the per-model cache (later calls
overwrite earlier ones) still hands every table the embeddings of exactly its
model keys. -/
theorem c7_embed_per_occurrence_cached {α : Type} (embed : String → α)
    (runs : List (String × List String)) :
    calculateEmbeddingsPerTable embed runs = runs.map (fun p => (p.1, p.2.map embed)) ∧
    ∀ m, (embedCallTrace runs).count m = (runs.map fun p => p.2.count m).sum := by
  constructor
  · unfold calculateEmbeddingsPerTable
    apply List.map_congr_left
    intro p hp
    have hmem : ∀ m ∈ p.2, m ∈ embedCallTrace runs := by
      intro m hm
      unfold embedCallTrace
      rw [List.mem_flatten]
      exact ⟨p.2, List.mem_map_of_mem Prod.snd hp, hm⟩
    rw [filterMap_lookup_eq_map embed runs p.2 hmem]
  · intro m
    unfold embedCallTrace
    rw [List.count_flatten, List.map_map]
    rfl

end SpiceVS
